import Mathlib

/-!
Verification development for the smartctl exporter's device-inventory core
(`src/main.go`).  The Go source is shallowly embedded below: pure helpers
become Lean functions, the imperative append loops of `scanDevices`,
`filterDevices` and `Collect` become `List.foldl` over explicit accumulators,
and the mutex-guarded sharing of the inventory between `Collect` and
`RescanForDevices` becomes a small-step transition system.

External collaborators that live outside `src/main.go` (`getDiskName`,
`formatDevices`, the smartctl listing reader, `readData`, the metric
translator) are taken as parameters, exactly as the Go code consumes them
through calls.  The device filter built by `newDeviceFilter` is also not in
`src/`; it is modelled from the specification (see `DeviceFilter`).
-/

set_option maxHeartbeats 1000000

namespace Smartctl

/-- Embedding of Go `strings.TrimSpace`: drop whitespace from both ends of a
string.  Implemented over the character list so that it reduces in the
kernel. -/
def trimSpace (s : String) : String :=
  String.mk (((s.toList.dropWhile Char.isWhitespace).reverse.dropWhile
      Char.isWhitespace).reverse)

/-- Helper for the embedding of Go `strings.Contains`: does `pat` occur as a
contiguous run inside the list? -/
def subOf (pat : List Char) : List Char → Bool
  | [] => pat.isEmpty
  | c :: rest => pat.isPrefixOf (c :: rest) || subOf pat rest

/-- Embedding of Go `strings.Contains s pat` (substring test). -/
def strContains (s pat : String) : Bool :=
  subOf pat.toList s.toList

/-- `Device` (src/main.go:37-41).  The Go field `Type` is rendered `Typ`
because `Type` is reserved in Lean. -/
structure Device where
  Name : String
  Info_Name : String
  Typ : String
deriving DecidableEq, Repr

/-- One entry of a smartctl scan listing as consumed by `scanDevices`
(src/main.go:132-144): the `name`, `info_name` and `type` fields read from
the reader's JSON. -/
structure ListingEntry where
  name : String
  info_name : String
  typ : String
deriving DecidableEq, Repr

/-- Modelled from the spec: the filter value built by `newDeviceFilter` and
its `ignored` method are not under `src/`.  §4.1 describes it as two
optional patterns; a set pattern is modelled as `some` of its match
predicate (the regular-expression engine itself is external). -/
structure DeviceFilter where
  exclude : Option (String → Bool)
  includeP : Option (String → Bool)

/-- Modelled from the spec (§4.1): with `exclude` set a name is ignored when
it matches `exclude`; otherwise with `includeP` set a name is ignored when it
does not match `includeP`; with neither set nothing is ignored. -/
def DeviceFilter.ignored (fl : DeviceFilter) (name : String) : Bool :=
  match fl.exclude with
  | some m => m name
  | none =>
    match fl.includeP with
    | some m => !(m name)
    | none => false

/-- The base-pass `Device` built at src/main.go:136-145: `Name` is the raw
listing name, `Info_Name` is `getDiskName` of the trimmed name and trimmed
`info_name`, `Typ` is the raw listing type.  `g` is the external
`getDiskName`. -/
def mkBaseDevice (g : String → String → String) (d : ListingEntry) : Device :=
  { Name := d.name, Info_Name := g (trimSpace d.name) (trimSpace d.info_name),
    Typ := d.typ }

/-- The keys recorded in the `isExists` map (src/main.go:134): the trimmed
`info_name` of every base-pass listing entry. -/
def baseKeys (base : List ListingEntry) : List String :=
  base.map (fun d => trimSpace d.info_name)

/-- The raid-pass listing entries that survive the `isExists` check
(src/main.go:150-151): those whose trimmed `info_name` is not a base-pass
key. -/
def keptRaid (base raid : List ListingEntry) : List ListingEntry :=
  raid.filter (fun d => !((baseKeys base).contains (trimSpace d.info_name)))

/-- The candidate list handed to the final filter loop of `scanDevices`: all
base-pass devices, then the `formatDevices` expansion (`f`) of every kept
raid-pass entry. -/
def scanPre (g : String → String → String) (f : ListingEntry → List Device)
    (base raid : List ListingEntry) : List Device :=
  base.map (mkBaseDevice g) ++ (keptRaid base raid).flatMap f

/-- Embedding of `scanDevices` (src/main.go:123-169), with the external
`getDiskName` (`g`), `formatDevices` (`f`), the configured device filter
(`fl`) and the two reader listings (`base`, `raid`) as parameters.  The three
Go `for`/`append` loops are rendered as left folds over the same
accumulators: the first builds the `isExists` keys together with the
base-pass devices, the second appends expanded raid entries not already
keyed, the third keeps the candidates the filter does not ignore. -/
def scanDevices (g : String → String → String) (f : ListingEntry → List Device)
    (fl : DeviceFilter) (base raid : List ListingEntry) : List Device :=
  let st := base.foldl
    (fun (st : List String × List Device) d =>
      (st.1 ++ [trimSpace d.info_name], st.2 ++ [mkBaseDevice g d]))
    ([], [])
  let devs := raid.foldl
    (fun acc d =>
      if st.1.contains (trimSpace d.info_name) then acc else acc ++ f d)
    st.2
  devs.foldl
    (fun acc d => if fl.ignored d.Info_Name then acc else acc ++ [d]) []

/-- Embedding of `filterDevices` (src/main.go:171-183): keep, in order, the
devices whose `Info_Name` contains some allowlist entry as a substring (the
Go inner loop `break`s at the first matching filter, i.e. it is a
disjunction). -/
def filterDevices (devices : List Device) (filters : List String) : List Device :=
  devices.foldl
    (fun acc d =>
      if filters.any (fun fi => strContains d.Info_Name fi) then acc ++ [d]
      else acc)
    []

/-- Embedding of the startup narrowing in `main` (src/main.go:201-208): the
explicit-device restriction is applied exactly when the operator supplied a
non-empty device list. -/
def initialInventory (scanned : List Device) (explicitDevs : List String) :
    List Device :=
  if explicitDevs.length > 0 then filterDevices scanned explicitDevs
  else scanned

/-- One second as a Go `time.Duration` (nanoseconds). -/
def timeSecond : Int := 1000000000

/-- Embedding of the rescan-start condition of `main` (src/main.go:215):
`*smartctlRescanInterval >= 1*time.Second`, the interval measured in
nanoseconds. -/
def startRescan (interval : Int) : Bool :=
  interval ≥ 1 * timeSecond

/-- The rescan-start decision as a function of the whole relevant
configuration: `main` consults only the interval (src/main.go:215), never
the explicit device list. -/
def shouldStartRescan (interval : Int) (explicitDevs : List String) : Bool :=
  startRescan interval

/-! ### Loop characterizations -/

/-- The first `scanDevices` loop accumulates exactly the base keys and the
base-pass devices, in listing order. -/
lemma baseLoop_eq (g : String → String → String) (base : List ListingEntry)
    (ks : List String) (ds : List Device) :
    base.foldl
      (fun (st : List String × List Device) d =>
        (st.1 ++ [trimSpace d.info_name], st.2 ++ [mkBaseDevice g d]))
      (ks, ds)
      = (ks ++ baseKeys base, ds ++ base.map (mkBaseDevice g)) := by
  induction base generalizing ks ds with
  | nil => simp [baseKeys]
  | cons d rest ih => simp [baseKeys, ih]

/-- The second `scanDevices` loop appends the expansions of exactly the raid
entries whose trimmed `info_name` is not among the keys. -/
lemma raidLoop_eq (f : ListingEntry → List Device) (keys : List String)
    (raid : List ListingEntry) (acc : List Device) :
    raid.foldl
      (fun acc d =>
        if keys.contains (trimSpace d.info_name) then acc else acc ++ f d)
      acc
      = acc ++ (raid.filter
          (fun d => !(keys.contains (trimSpace d.info_name)))).flatMap f := by
  induction raid generalizing acc with
  | nil => simp
  | cons d rest ih =>
    rw [List.foldl_cons, List.filter_cons]
    by_cases h : trimSpace d.info_name ∈ keys
    · rw [if_pos (by simpa using h), ih]
      simp [h]
    · rw [if_neg (by simpa using h), ih]
      simp [h]

/-- A loop that appends the elements failing a test is `List.filter` with the
negated test. -/
lemma dropLoop_eq (p : Device → Bool) (l acc : List Device) :
    l.foldl (fun acc d => if p d then acc else acc ++ [d]) acc
      = acc ++ l.filter (fun d => !(p d)) := by
  induction l generalizing acc with
  | nil => simp
  | cons d rest ih =>
    by_cases h : p d <;> simp [h, ih]

/-- A loop that appends the elements passing a test is `List.filter`. -/
lemma keepLoop_eq (p : Device → Bool) (l acc : List Device) :
    l.foldl (fun acc d => if p d then acc ++ [d] else acc) acc
      = acc ++ l.filter p := by
  induction l generalizing acc with
  | nil => simp
  | cons d rest ih =>
    by_cases h : p d <;> simp [h, ih]

/-- `scanDevices` is the final filter applied to the base-then-raid candidate
list. -/
lemma scanDevices_eq (g : String → String → String)
    (f : ListingEntry → List Device) (fl : DeviceFilter)
    (base raid : List ListingEntry) :
    scanDevices g f fl base raid
      = (scanPre g f base raid).filter (fun d => !(fl.ignored d.Info_Name)) := by
  unfold scanDevices scanPre keptRaid
  dsimp only
  rw [baseLoop_eq]
  dsimp only
  rw [raidLoop_eq, dropLoop_eq]
  simp

/-- `filterDevices` is `List.filter` with the any-allowlist-entry-contained
test. -/
lemma filterDevices_eq (devices : List Device) (filters : List String) :
    filterDevices devices filters
      = devices.filter
          (fun d => filters.any (fun fi => strContains d.Info_Name fi)) := by
  unfold filterDevices
  rw [keepLoop_eq]
  simp

/-- `strContains` decides the contiguous-substring relation on the underlying
character lists. -/
lemma strContains_iff (s pat : String) :
    strContains s pat = true ↔ pat.toList <:+: s.toList := by
  unfold strContains
  generalize pat.toList = p
  induction s.toList with
  | nil =>
    simp only [subOf, List.isEmpty_iff]
    constructor
    · rintro rfl; exact List.infix_rfl
    · intro h; simpa using h.length_le
  | cons c rest ih =>
    simp only [subOf, Bool.or_eq_true, List.isPrefixOf_iff_prefix, ih,
      List.infix_cons_iff]

/-! ### The collection pass (`SMARTctlManagerCollector.Collect`) -/

/-- One value sent on the metric channel during `Collect`
(src/main.go:62-80).  `sample d s` is one metric emitted by
`NewSMARTctl(logger, json, ch).Collect()` while processing device `d`;
`deviceCount n` is the `metricDeviceCount` gauge; `info js` is the final
`info.Collect()` of the `SMARTctlInfo` that was handed the JSON results
`js` via `SetJSON`.  `J` is the type of parsed reader results, `S` the type
of translated metric samples (both external). -/
inductive Emission (J S : Type) where
  | sample (d : Device) (s : S)
  | deviceCount (n : Nat)
  | info (js : List J)
deriving DecidableEq, Repr

/-- Embedding of `Collect` (src/main.go:62-80).  `rd` is the external
`readData` composed with the `json.Exists()` test (`none` means absent or
malformed), `tr` the external metric translator
(`NewSMARTctl(...).Collect()`).  The loop is the left fold: for each device
in inventory order, a readable result is handed to `info.SetJSON` (first
accumulator) and its translated samples are emitted (second accumulator);
an unreadable device contributes nothing.  After the loop the device-count
gauge is emitted, then the info metric. -/
def collectPass {J S : Type} (rd : Device → Option J) (tr : J → List S)
    (devices : List Device) : List (Emission J S) :=
  let st := devices.foldl
    (fun (st : List J × List (Emission J S)) d =>
      match rd d with
      | some j => (st.1 ++ [j], st.2 ++ (tr j).map (Emission.sample d))
      | none => st)
    ([], [])
  st.2 ++ [Emission.deviceCount devices.length] ++ [Emission.info st.1]

/-- The samples emitted for device `d` during a pass. -/
def samplesFor {J S : Type} (d : Device) (l : List (Emission J S)) : List S :=
  l.filterMap
    (fun e =>
      match e with
      | Emission.sample d2 s => if d2 = d then some s else none
      | _ => none)

/-- The values of the device-count emissions of a pass. -/
def countValues {J S : Type} (l : List (Emission J S)) : List Nat :=
  l.filterMap
    (fun e =>
      match e with
      | Emission.deviceCount n => some n
      | _ => none)

/-- The per-device contribution of the `Collect` loop. -/
def deviceEmissions {J S : Type} (rd : Device → Option J) (tr : J → List S)
    (d : Device) : List (Emission J S) :=
  match rd d with
  | some j => (tr j).map (Emission.sample d)
  | none => []

/-- The `Collect` loop accumulates exactly the readable JSON results and the
per-device sample emissions, in inventory order. -/
lemma collectLoop_eq {J S : Type} (rd : Device → Option J) (tr : J → List S)
    (devices : List Device) (js : List J) (acc : List (Emission J S)) :
    devices.foldl
      (fun (st : List J × List (Emission J S)) d =>
        match rd d with
        | some j => (st.1 ++ [j], st.2 ++ (tr j).map (Emission.sample d))
        | none => st)
      (js, acc)
      = (js ++ devices.filterMap rd,
         acc ++ devices.flatMap (deviceEmissions rd tr)) := by
  induction devices generalizing js acc with
  | nil => simp
  | cons d rest ih =>
    rw [List.foldl_cons]
    cases h : rd d with
    | none => simp [h, ih, deviceEmissions]
    | some j => simp [h, ih, deviceEmissions]

/-- `collectPass` as a flat map of per-device contributions followed by the
count and info emissions. -/
lemma collectPass_eq {J S : Type} (rd : Device → Option J) (tr : J → List S)
    (devices : List Device) :
    collectPass rd tr devices
      = devices.flatMap (deviceEmissions rd tr)
        ++ [Emission.deviceCount devices.length]
        ++ [Emission.info (devices.filterMap rd)] := by
  unfold collectPass
  rw [collectLoop_eq]
  simp

/-! ### The shared inventory under the mutex

`SMARTctlManagerCollector` shares `Devices` between `Collect`
(src/main.go:62-80) and `RescanForDevices` (src/main.go:82-91) under the
single `sync.Mutex`.  The sharing is embedded as a small-step transition
system: the rescanner scans outside the lock, then locks, replaces the whole
list and unlocks; each collection pass locks, reads the list one element at
a time (the `range` loop) and unlocks.  Reads are at element granularity so
that a torn (mixed) observation is expressible in the model and ruled out
by proof, not by construction. -/

/-- Local state of one collection pass: not started, holding the lock with
the elements observed so far, or finished with its full observation. -/
inductive CPhase where
  | idle
  | reading (obs : List Device)
  | done (obs : List Device)
deriving DecidableEq, Repr

/-- Local state of the rescanner's single replace: before locking, holding
the lock before/after the write, or finished. -/
inductive RPhase where
  | idle
  | locked
  | written
  | finished
deriving DecidableEq, Repr

/-- Global state: the `Devices` field, the mutex (`some 0` held by the
rescanner, `some (k+1)` held by collection pass `k`, `none` free), the
rescanner phase and the phase of every collection pass. -/
structure Sys where
  devices : List Device
  lock : Option Nat
  rph : RPhase
  cph : Nat → CPhase

/-- Initial state: inventory `old` from the startup scan, mutex free,
nothing running. -/
def Sys.init (old : List Device) : Sys :=
  { devices := old, lock := none, rph := RPhase.idle, cph := fun _ => CPhase.idle }

/-- One interleaving step.  `en` is whether `main` started the background
rescan goroutine (src/main.go:215-219); `new` is the device list the
rescanner's `scanDevices` call produced before taking the lock
(src/main.go:86-89). -/
inductive Step (en : Bool) (new : List Device) : Sys → Sys → Prop where
  | rLock (s : Sys) (hen : en = true) (hr : s.rph = RPhase.idle)
      (hl : s.lock = none) :
      Step en new s { s with lock := some 0, rph := RPhase.locked }
  | rWrite (s : Sys) (hr : s.rph = RPhase.locked) :
      Step en new s { s with devices := new, rph := RPhase.written }
  | rUnlock (s : Sys) (hr : s.rph = RPhase.written) :
      Step en new s { s with lock := none, rph := RPhase.finished }
  | cLock (s : Sys) (k : Nat) (hc : s.cph k = CPhase.idle)
      (hl : s.lock = none) :
      Step en new s
        { s with lock := some (k + 1),
                 cph := Function.update s.cph k (CPhase.reading []) }
  | cRead (s : Sys) (k : Nat) (obs : List Device) (d : Device)
      (hc : s.cph k = CPhase.reading obs) (hl : s.lock = some (k + 1))
      (hd : s.devices.get? obs.length = some d) :
      Step en new s
        { s with cph := Function.update s.cph k (CPhase.reading (obs ++ [d])) }
  | cUnlock (s : Sys) (k : Nat) (obs : List Device)
      (hc : s.cph k = CPhase.reading obs) (hl : s.lock = some (k + 1))
      (hlen : obs.length = s.devices.length) :
      Step en new s
        { s with lock := none, cph := Function.update s.cph k (CPhase.done obs) }

/-- Reachability from the initial state. -/
def Reach (en : Bool) (new old : List Device) (s : Sys) : Prop :=
  Relation.ReflTransGen (Step en new) (Sys.init old) s

/-- The inductive invariant of the system. -/
structure SysInv (en : Bool) (old new : List Device) (s : Sys) : Prop where
  devOld : s.rph = RPhase.idle ∨ s.rph = RPhase.locked → s.devices = old
  devNew : s.rph = RPhase.written ∨ s.rph = RPhase.finished → s.devices = new
  rHolds : s.rph = RPhase.locked ∨ s.rph = RPhase.written → s.lock = some 0
  cHolds : ∀ k obs, s.cph k = CPhase.reading obs →
    s.lock = some (k + 1) ∧ obs = s.devices.take obs.length
  cDone : ∀ k obs, s.cph k = CPhase.done obs → obs = old ∨ obs = new
  noScan : en = false → s.rph = RPhase.idle
  cDoneOld : en = false → ∀ k obs, s.cph k = CPhase.done obs → obs = old

/-- In any state the inventory is the pre-replace or the post-replace
list. -/
lemma SysInv.devCases {en : Bool} {old new : List Device} {s : Sys}
    (h : SysInv en old new s) : s.devices = old ∨ s.devices = new := by
  cases hr : s.rph with
  | idle => exact Or.inl (h.devOld (Or.inl hr))
  | locked => exact Or.inl (h.devOld (Or.inr hr))
  | written => exact Or.inr (h.devNew (Or.inl hr))
  | finished => exact Or.inr (h.devNew (Or.inr hr))

/-- The invariant holds initially. -/
lemma sysInv_init (en : Bool) (old new : List Device) :
    SysInv en old new (Sys.init old) := by
  constructor <;> intro h <;> simp_all [Sys.init]

/-- The invariant is preserved by every step. -/
lemma sysInv_step {en : Bool} {old new : List Device} {s s' : Sys}
    (hinv : SysInv en old new s) (hstep : Step en new s s') :
    SysInv en old new s' := by
  cases hstep with
  | rLock hen hr hl =>
    refine ⟨?_, ?_, ?_, ?_, hinv.cDone, ?_, hinv.cDoneOld⟩
    · intro _; exact hinv.devOld (Or.inl hr)
    · rintro (h | h) <;> simp_all
    · intro _; rfl
    · intro k obs hc
      have h1 := (hinv.cHolds k obs hc).1
      rw [hl] at h1
      cases h1
    · intro hf
      rw [hen] at hf
      cases hf
  | rWrite hr =>
    refine ⟨?_, ?_, ?_, ?_, hinv.cDone, ?_, hinv.cDoneOld⟩
    · rintro (h | h) <;> simp_all
    · intro _; rfl
    · intro _; exact hinv.rHolds (Or.inl hr)
    · intro k obs hc
      have h1 := (hinv.cHolds k obs hc).1
      have h2 := hinv.rHolds (Or.inl hr)
      simp_all
    · intro hf; have := hinv.noScan hf; simp_all
  | rUnlock hr =>
    refine ⟨?_, ?_, ?_, ?_, hinv.cDone, ?_, hinv.cDoneOld⟩
    · rintro (h | h) <;> simp_all
    · intro _; exact hinv.devNew (Or.inl hr)
    · rintro (h | h) <;> simp_all
    · intro k obs hc
      have h1 := (hinv.cHolds k obs hc).1
      have h2 := hinv.rHolds (Or.inr hr)
      simp_all
    · intro hf; have := hinv.noScan hf; simp_all
  | cLock k hc hl =>
    refine ⟨hinv.devOld, hinv.devNew, ?_, ?_, ?_, hinv.noScan, ?_⟩
    · intro h; exact absurd (hinv.rHolds h) (by simp_all)
    · intro k2 obs hc2
      by_cases hk : k2 = k
      · subst hk
        simp only [Function.update_same] at hc2
        cases hc2
        simp
      · simp only [Function.update_noteq hk] at hc2
        have h1 := (hinv.cHolds k2 obs hc2).1
        rw [hl] at h1
        cases h1
    · intro k2 obs hc2
      by_cases hk : k2 = k
      · subst hk; simp only [Function.update_same] at hc2; cases hc2
      · simp only [Function.update_noteq hk] at hc2
        exact hinv.cDone k2 obs hc2
    · intro hf k2 obs hc2
      by_cases hk : k2 = k
      · subst hk; simp only [Function.update_same] at hc2; cases hc2
      · simp only [Function.update_noteq hk] at hc2
        exact hinv.cDoneOld hf k2 obs hc2
  | cRead k obs d hc hl hd =>
    refine ⟨hinv.devOld, hinv.devNew, hinv.rHolds, ?_, ?_, hinv.noScan, ?_⟩
    · intro k2 obs2 hc2
      by_cases hk : k2 = k
      · subst hk
        simp only [Function.update_same] at hc2
        cases hc2
        have hpre := (hinv.cHolds k2 obs hc).2
        refine ⟨hl, ?_⟩
        have htake : s.devices.take (obs.length + 1)
            = s.devices.take obs.length ++ (s.devices.get? obs.length).toList := by
          simpa using List.take_succ (l := s.devices) (n := obs.length)
        have hd2 : s.devices[obs.length]? = some d := by simpa using hd
        simp [htake, hd2, ← hpre]
      · simp only [Function.update_noteq hk] at hc2
        have h1 := (hinv.cHolds k2 obs2 hc2).1
        rw [h1] at hl
        cases hl
        exact absurd rfl hk
    · intro k2 obs2 hc2
      by_cases hk : k2 = k
      · subst hk; simp only [Function.update_same] at hc2; cases hc2
      · simp only [Function.update_noteq hk] at hc2
        exact hinv.cDone k2 obs2 hc2
    · intro hf k2 obs2 hc2
      by_cases hk : k2 = k
      · subst hk; simp only [Function.update_same] at hc2; cases hc2
      · simp only [Function.update_noteq hk] at hc2
        exact hinv.cDoneOld hf k2 obs2 hc2
  | cUnlock k obs hc hl hlen =>
    have hobs : obs = s.devices := by
      have hpre := (hinv.cHolds k obs hc).2
      rw [hpre, hlen, List.take_length]
    refine ⟨hinv.devOld, hinv.devNew, ?_, ?_, ?_, hinv.noScan, ?_⟩
    · intro h
      have := hinv.rHolds h
      simp_all
    · intro k2 obs2 hc2
      by_cases hk : k2 = k
      · subst hk; simp only [Function.update_same] at hc2; cases hc2
      · simp only [Function.update_noteq hk] at hc2
        have h1 := (hinv.cHolds k2 obs2 hc2).1
        rw [h1] at hl
        cases hl
        exact absurd rfl hk
    · intro k2 obs2 hc2
      by_cases hk : k2 = k
      · subst hk
        simp only [Function.update_same] at hc2
        cases hc2
        rw [hobs]
        exact hinv.devCases
      · simp only [Function.update_noteq hk] at hc2
        exact hinv.cDone k2 obs2 hc2
    · intro hf k2 obs2 hc2
      by_cases hk : k2 = k
      · subst hk
        simp only [Function.update_same] at hc2
        cases hc2
        rw [hobs]
        exact hinv.devOld (Or.inl (hinv.noScan hf))
      · simp only [Function.update_noteq hk] at hc2
        exact hinv.cDoneOld hf k2 obs2 hc2

/-- The invariant holds in every reachable state. -/
lemma sysInv_reach {en : Bool} {new old : List Device} {s : Sys}
    (h : Reach en new old s) : SysInv en old new s := by
  induction h with
  | refl => exact sysInv_init en old new
  | tail _ hstep ih => exact sysInv_step ih hstep

/-! ### Concrete instances used by counterexamples and witnesses -/

/-- A `getDiskName` that returns the trimmed raw `info_name` unchanged. -/
def gId : String → String → String := fun _ i => i

/-- A `getDiskName` that derives the canonical name from the device name. -/
def gName : String → String → String := fun n _ => n

/-- A `formatDevices` expanding a raid entry to one device named by its
trimmed `info_name`. -/
def fOne : ListingEntry → List Device :=
  fun d => [{ Name := d.name, Info_Name := trimSpace d.info_name, Typ := d.typ }]

/-- A `formatDevices` expanding a raid entry to one device named by its
trimmed `name`. -/
def fName : ListingEntry → List Device :=
  fun d => [{ Name := d.name, Info_Name := trimSpace d.name, Typ := d.typ }]

/-- A `formatDevices` expanding every raid entry to nothing. -/
def fEmpty : ListingEntry → List Device := fun _ => []

/-- The filter with neither pattern configured. -/
def flNone : DeviceFilter := ⟨none, none⟩

/-- A match predicate for the pattern `^loop`. -/
def loopMatch : String → Bool := fun s => ("loop".toList).isPrefixOf s.toList

/-- The filter excluding names matching `^loop`. -/
def flLoop : DeviceFilter := ⟨some loopMatch, none⟩

def eSda : ListingEntry := ⟨"/dev/sda", "sda", "sat"⟩
def eLoop0 : ListingEntry := ⟨"/dev/loop0", "loop0", "loop"⟩
def eLoop1 : ListingEntry := ⟨"/dev/loop1", "loop1", "loop"⟩

/-- Base listing entry whose raw `info_name` (a bus address) differs from the
canonical name `gName` derives for it. -/
def bBus : ListingEntry := ⟨"/dev/sda", "bus0", "sat"⟩

/-- Raid listing entry sharing `bBus`'s raw `info_name`. -/
def rBus : ListingEntry := ⟨"/dev/sdX", "bus0", "sat"⟩

/-- Raid listing entry whose raw `info_name` differs from every base key but
whose expansion under `fName` collides with `bBus`'s canonical name. -/
def rRaid : ListingEntry := ⟨"/dev/sda", "raid1", "sat"⟩

def dSda : Device := ⟨"/dev/sda", "sda", "sat"⟩
def dSdb : Device := ⟨"/dev/sdb", "sdb", "sat"⟩

/-! ### Further helper lemmas -/

/-- In a list with pairwise-distinct `Info_Name`s, filtering by a member's
name after any other filter that keeps that member yields exactly that
member. -/
lemma filter_filter_nameEq {l : List Device} {x : Device} {p : Device → Bool}
    (hn : (l.map Device.Info_Name).Nodup) (hx : x ∈ l) (hp : p x = true) :
    (l.filter p).filter (fun d => d.Info_Name == x.Info_Name) = [x] := by
  induction l with
  | nil => cases hx
  | cons y rest ih =>
    rw [List.map_cons, List.nodup_cons] at hn
    have hrest : ∀ z ∈ rest, (z.Info_Name == y.Info_Name) = false := by
      intro z hz
      rw [beq_eq_false_iff_ne]
      intro hEq
      exact hn.1 (hEq ▸ List.mem_map_of_mem Device.Info_Name hz)
    rcases List.mem_cons.mp hx with rfl | hx2
    · rw [List.filter_cons_of_pos hp, List.filter_cons_of_pos (by simp)]
      have hnil : (rest.filter p).filter
          (fun d => d.Info_Name == x.Info_Name) = [] := by
        rw [List.filter_eq_nil_iff]
        intro z hz
        simp [hrest z (List.mem_of_mem_filter hz)]
      rw [hnil]
    · have hyx : (y.Info_Name == x.Info_Name) = false := by
        rw [beq_eq_false_iff_ne]
        intro hEq
        have := hrest x hx2
        rw [beq_eq_false_iff_ne] at this
        exact this hEq.symm
      by_cases hpy : p y
      · rw [List.filter_cons_of_pos hpy, List.filter_cons_of_neg (by simp [hyx]),
          ih hn.2 hx2]
      · rw [List.filter_cons_of_neg (by simp [hpy]), ih hn.2 hx2]

/-- A flat map of empty contributions is empty. -/
lemma flatMap_nilFun {α β : Type} (l : List α) :
    l.flatMap (fun _ => ([] : List β)) = [] := by
  induction l with
  | nil => rfl
  | cons a rest ih => simp [ih]

/-- The samples a readable device contributes: its translated result, or
nothing when the reader result is absent. -/
def readSamples {J S : Type} (rd : Device → Option J) (tr : J → List S)
    (d : Device) : List S :=
  match rd d with
  | some j => tr j
  | none => []

lemma samplesFor_append {J S : Type} (d : Device) (l1 l2 : List (Emission J S)) :
    samplesFor d (l1 ++ l2) = samplesFor d l1 ++ samplesFor d l2 :=
  List.filterMap_append l1 l2 _

lemma countValues_append {J S : Type} (l1 l2 : List (Emission J S)) :
    countValues (l1 ++ l2) = countValues l1 ++ countValues l2 :=
  List.filterMap_append l1 l2 _

/-- The samples attributed to `d` in the emissions of one device `e`. -/
lemma samplesFor_deviceEmissions {J S : Type} (rd : Device → Option J)
    (tr : J → List S) (d e : Device) :
    samplesFor d (deviceEmissions rd tr e)
      = if e = d then readSamples rd tr e else [] := by
  unfold deviceEmissions readSamples
  cases h : rd e with
  | none => simp [samplesFor]
  | some j =>
    by_cases he : e = d
    · subst he
      simp [samplesFor, List.filterMap_map, Function.comp_def]
    · simp [samplesFor, List.filterMap_map, Function.comp_def, he]

/-- Samples attributed to `d` across the per-device loop: one block of
`readSamples rd tr d` for each occurrence of `d` in the inventory. -/
lemma samplesFor_flat {J S : Type} (rd : Device → Option J) (tr : J → List S)
    (devices : List Device) (d : Device) :
    samplesFor d (devices.flatMap (deviceEmissions rd tr))
      = (devices.filter (fun e => e == d)).flatMap
          (fun _ => readSamples rd tr d) := by
  induction devices with
  | nil => simp [samplesFor]
  | cons e rest ih =>
    rw [List.flatMap_cons, samplesFor_append, samplesFor_deviceEmissions, ih,
      List.filter_cons]
    by_cases he : e = d
    · subst he
      simp
    · simp [he]

/-- One device's emission block contains no device-count emission. -/
lemma countValues_deviceEmissions {J S : Type} (rd : Device → Option J)
    (tr : J → List S) (e : Device) :
    countValues (deviceEmissions rd tr e) = [] := by
  unfold deviceEmissions
  cases h : rd e with
  | none => rfl
  | some j => simp [countValues, List.filterMap_map, Function.comp_def]

/-- The sample blocks of the loop contain no device-count emission. -/
lemma countValues_flat {J S : Type} (rd : Device → Option J) (tr : J → List S)
    (devices : List Device) :
    countValues (devices.flatMap (deviceEmissions rd tr)) = [] := by
  induction devices with
  | nil => rfl
  | cons e rest ih =>
    rw [List.flatMap_cons, countValues_append, countValues_deviceEmissions, ih]
    rfl

/-- The samples attributed to `d` in a whole collection pass. -/
lemma samplesFor_collect {J S : Type} (rd : Device → Option J) (tr : J → List S)
    (devices : List Device) (d : Device) :
    samplesFor d (collectPass rd tr devices)
      = (devices.filter (fun e => e == d)).flatMap
          (fun _ => readSamples rd tr d) := by
  rw [collectPass_eq, samplesFor_append, samplesFor_append, samplesFor_flat]
  simp [samplesFor]

/-! ### Claim theorems -/

/-- Claim C1: the inventory-replace of the background rescan and the
exclusive read of a collection pass are fully serialized under the one
mutex: in every interleaving of one rescan with any number of collection
passes, a completed collection pass observed either the entire pre-replace
list or the entire post-replace list, never a mix. -/
theorem claim1_snapshot_consistency (en : Bool) (old new : List Device)
    (s : Sys) (k : Nat) (obs : List Device)
    (hreach : Reach en new old s) (hdone : s.cph k = CPhase.done obs) :
    obs = old ∨ obs = new :=
  (sysInv_reach hreach).cDone k obs hdone

def wit1A : Sys := Sys.init [dSda]

def wit1B : Sys :=
  { wit1A with lock := some 1,
               cph := Function.update wit1A.cph 0 (CPhase.reading []) }

def wit1C : Sys :=
  { wit1B with cph := Function.update wit1B.cph 0 (CPhase.reading [dSda]) }

def wit1D : Sys :=
  { wit1C with lock := none,
               cph := Function.update wit1C.cph 0 (CPhase.done [dSda]) }

/-- Witness for C1 on a concrete execution: one collection pass locks, reads
the single device and unlocks; its observation is one of the two complete
lists. -/
theorem claim1_witness :
    Reach false [] [dSda] wit1D ∧ wit1D.cph 0 = CPhase.done [dSda]
      ∧ ([dSda] = [dSda] ∨ [dSda] = ([] : List Device)) := by
  have hAB : Step false [] wit1A wit1B := Step.cLock wit1A 0 rfl rfl
  have hBC : Step false [] wit1B wit1C := Step.cRead wit1B 0 [] dSda rfl rfl rfl
  have hCD : Step false [] wit1C wit1D := Step.cUnlock wit1C 0 [dSda] rfl rfl rfl
  have hreach : Reach false [] [dSda] wit1D :=
    Relation.ReflTransGen.tail
      (Relation.ReflTransGen.tail
        (Relation.ReflTransGen.tail Relation.ReflTransGen.refl hAB) hBC) hCD
  exact ⟨hreach, rfl,
    claim1_snapshot_consistency false [dSda] [] wit1D 0 [dSda] hreach rfl⟩

/-- Claim C2 counterexample: dedup is keyed on the trimmed raw `info_name`,
so when only the derived canonical names coincide (raw keys differ) the
canonical name appears in both passes and yet two devices with that name are
produced, not exactly one. -/
theorem claim2_counterexample :
    "/dev/sda" ∈ (([bBus].map (mkBaseDevice gName)).map Device.Info_Name)
    ∧ "/dev/sda" ∈ (((keptRaid [bBus] [rRaid]).flatMap fName).map Device.Info_Name)
    ∧ ((scanDevices gName fName flNone [bBus] [rRaid]).filter
        (fun d => d.Info_Name == "/dev/sda")).length = 2 := by
  decide

/-- Claim C2 (amended): dedup precedence holds at the raw-key level: a raid
listing entry whose trimmed `info_name` equals that of some base entry
contributes nothing; and provided the candidate canonical names are
pairwise distinct and the base device is not filtered out, the result holds
exactly one device with that canonical name, the base-pass variant.  The
output is the base-then-raid candidate list filtered in order. -/
theorem claim2_dedup_amended (g : String → String → String)
    (f : ListingEntry → List Device) (fl : DeviceFilter)
    (base raid : List ListingEntry) (b r : ListingEntry)
    (hb : b ∈ base) (hr : r ∈ raid)
    (hkey : trimSpace r.info_name = trimSpace b.info_name)
    (hnodup : ((scanPre g f base raid).map Device.Info_Name).Nodup)
    (hkeep : fl.ignored (mkBaseDevice g b).Info_Name = false) :
    r ∉ keptRaid base raid
    ∧ (scanDevices g f fl base raid).filter
        (fun d => d.Info_Name == (mkBaseDevice g b).Info_Name)
        = [mkBaseDevice g b]
    ∧ scanDevices g f fl base raid
        = (base.map (mkBaseDevice g) ++ (keptRaid base raid).flatMap f).filter
            (fun d => !(fl.ignored d.Info_Name)) := by
  refine ⟨?_, ?_, ?_⟩
  · intro hmem
    rw [keptRaid, List.mem_filter] at hmem
    have hkeymem : trimSpace r.info_name ∈ baseKeys base := by
      rw [hkey, baseKeys]
      exact List.mem_map_of_mem _ hb
    have h2 := hmem.2
    simp only [Bool.not_eq_true'] at h2
    have h3 : (baseKeys base).contains (trimSpace r.info_name) = true := by
      simp [hkeymem]
    rw [h3] at h2
    cases h2
  · rw [scanDevices_eq]
    exact filter_filter_nameEq hnodup
      (List.mem_append_left _ (List.mem_map_of_mem _ hb)) (by simp [hkeep])
  · rw [scanDevices_eq, scanPre]

def rDup : ListingEntry := ⟨"/dev/sdY", "sda", "sat"⟩

/-- Witness for the amended C2 at a concrete input: the raid entry sharing
the base key is dropped; exactly the base device carries the name. -/
theorem claim2_amended_witness :
    rDup ∉ keptRaid [eSda] [rDup]
    ∧ (scanDevices gId fEmpty flNone [eSda] [rDup]).filter
        (fun d => d.Info_Name == (mkBaseDevice gId eSda).Info_Name)
        = [mkBaseDevice gId eSda] :=
  have h := claim2_dedup_amended gId fEmpty flNone [eSda] [rDup] eSda rDup
    (by decide) (by decide) (by decide) (by decide) (by decide)
  ⟨h.1, h.2.1⟩

/-- Claim C3 counterexample: a base listing that reports the same
`info_name` twice yields two devices with the same canonical name — nothing
dedups within the base pass. -/
theorem claim3_counterexample :
    ¬ (((scanDevices gId fOne flNone [eSda, eSda] []).map
        Device.Info_Name).Nodup) := by
  decide

/-- Claim C3 (amended): the produced sequence has pairwise-distinct
canonical names provided the derived base-pass names are pairwise distinct
and the raid-expanded device names are pairwise distinct and disjoint from
the base-pass names; the code's raw-`info_name` dedup alone does not
enforce this. -/
theorem claim3_uniqueness_amended (g : String → String → String)
    (f : ListingEntry → List Device) (fl : DeviceFilter)
    (base raid : List ListingEntry)
    (hbase : ((base.map (mkBaseDevice g)).map Device.Info_Name).Nodup)
    (hraid : (((keptRaid base raid).flatMap f).map Device.Info_Name).Nodup)
    (hdisj : ∀ n ∈ (base.map (mkBaseDevice g)).map Device.Info_Name,
        n ∉ ((keptRaid base raid).flatMap f).map Device.Info_Name) :
    ((scanDevices g f fl base raid).map Device.Info_Name).Nodup := by
  rw [scanDevices_eq]
  have hpre : ((scanPre g f base raid).map Device.Info_Name).Nodup := by
    rw [scanPre, List.map_append]
    exact List.Nodup.append hbase hraid (fun a ha hb => hdisj a ha hb)
  exact List.Nodup.sublist (List.Sublist.map _ (List.filter_sublist _)) hpre

/-- Witness for the amended C3 at a concrete input. -/
theorem claim3_amended_witness :
    ((scanDevices gId fEmpty flNone [eSda] []).map Device.Info_Name).Nodup :=
  claim3_uniqueness_amended gId fEmpty flNone [eSda] []
    (by decide) (by decide) (by decide)

/-- Claim C4: the filter policy — with `exclude` set a name is ignored
exactly when it matches; with `includeP` set exactly when it does not match;
with neither set never — and discovery emits exactly the candidates whose
canonical name is not ignored, in candidate order (with the spec's
`^loop` scenario as a concrete instance). -/
theorem claim4_filter_policy :
    (∀ (m : String → Bool) (name : String),
        (DeviceFilter.mk (some m) none).ignored name = m name)
    ∧ (∀ (m : String → Bool) (name : String),
        (DeviceFilter.mk none (some m)).ignored name = !(m name))
    ∧ (∀ name : String, (DeviceFilter.mk none none).ignored name = false)
    ∧ (∀ (g : String → String → String) (f : ListingEntry → List Device)
        (fl : DeviceFilter) (base raid : List ListingEntry),
        scanDevices g f fl base raid
          = (scanPre g f base raid).filter
              (fun d => !(fl.ignored d.Info_Name)))
    ∧ (scanDevices gId fOne flLoop [eSda, eLoop0, eLoop1] []).map
        Device.Info_Name = ["sda"] :=
  ⟨fun m name => rfl, fun m name => rfl, fun name => rfl, scanDevices_eq,
    by decide⟩

/-- Claim C5: restriction by a non-empty allowlist is a sublist of the
input, retaining a device exactly when its canonical name contains some
allowlist entry as a substring (and `strContains` is the contiguous
substring relation, not exact or pattern match). -/
theorem claim5_allowlist_narrowing (devices : List Device)
    (filters : List String) (hne : filters ≠ []) :
    (filterDevices devices filters).Sublist devices
    ∧ filterDevices devices filters
        = devices.filter
            (fun d => filters.any (fun fi => strContains d.Info_Name fi))
    ∧ (∀ d, d ∈ filterDevices devices filters
        ↔ d ∈ devices ∧ ∃ fi ∈ filters, strContains d.Info_Name fi = true)
    ∧ (∀ s pat : String, strContains s pat = true ↔ pat.toList <:+: s.toList) := by
  refine ⟨?_, filterDevices_eq devices filters, ?_, strContains_iff⟩
  · rw [filterDevices_eq]
    exact List.filter_sublist devices
  · intro d
    rw [filterDevices_eq, List.mem_filter]
    simp [List.any_eq_true]

/-- Witness for C5 at the spec's scenario. -/
theorem claim5_witness :
    (["sda"] : List String) ≠ []
    ∧ (filterDevices [dSda, dSdb] ["sda"]).Sublist [dSda, dSdb] :=
  ⟨by decide,
    (claim5_allowlist_narrowing [dSda, dSdb] ["sda"] (by decide)).1⟩

/-- Claim C6: a collection pass is the concatenation of independent
per-device blocks followed by one device-count emission whose value is the
full inventory length (unreadable devices included) and the info emission;
an absent reader result contributes no samples, and the samples attributed
to a device depend only on its own reader result. -/
theorem claim6_collect_isolation {J S : Type} (rd : Device → Option J)
    (tr : J → List S) (devices : List Device) :
    collectPass rd tr devices
      = devices.flatMap (deviceEmissions rd tr)
        ++ [Emission.deviceCount devices.length]
        ++ [Emission.info (devices.filterMap rd)]
    ∧ countValues (collectPass rd tr devices) = [devices.length]
    ∧ (∀ d, rd d = none → samplesFor d (collectPass rd tr devices) = [])
    ∧ (∀ (rd2 : Device → Option J) (d : Device), rd2 d = rd d →
        samplesFor d (collectPass rd2 tr devices)
          = samplesFor d (collectPass rd tr devices)) := by
  refine ⟨collectPass_eq rd tr devices, ?_, ?_, ?_⟩
  · rw [collectPass_eq, countValues_append, countValues_append, countValues_flat]
    simp [countValues]
  · intro d hd
    rw [samplesFor_collect]
    have hnil : readSamples rd tr d = [] := by simp [readSamples, hd]
    rw [hnil]
    exact flatMap_nilFun _
  · intro rd2 d hagree
    rw [samplesFor_collect, samplesFor_collect]
    have heq : readSamples rd2 tr d = readSamples rd tr d := by
      unfold readSamples
      rw [hagree]
    rw [heq]

def rdNone : Device → Option Nat := fun _ => none

def trSingleton : Nat → List Nat := fun n => [n]

/-- Witness for C6: with an always-absent reader the pass attributes no
samples to the device. -/
theorem claim6_witness :
    rdNone dSda = none
    ∧ samplesFor dSda (collectPass rdNone trSingleton [dSda]) = [] :=
  ⟨rfl, (claim6_collect_isolation rdNone trSingleton [dSda]).2.2.1 dSda rfl⟩

/-- Claim C7: the background rescan loop is started exactly when the
interval is at least one second; with a smaller interval no rescan step is
enabled, so every reachable state still holds the startup inventory and
every completed collection pass observed exactly it. -/
theorem claim7_rescan_gating :
    (∀ interval : Int, startRescan interval = true ↔ timeSecond ≤ interval)
    ∧ (∀ (interval : Int) (old new : List Device) (s : Sys),
        startRescan interval = false →
        Reach (startRescan interval) new old s →
        s.devices = old
          ∧ ∀ k obs, s.cph k = CPhase.done obs → obs = old) := by
  constructor
  · intro interval
    simp [startRescan, timeSecond]
  · intro interval old new s hoff hreach
    rw [hoff] at hreach
    have hinv := sysInv_reach hreach
    exact ⟨hinv.devOld (Or.inl (hinv.noScan rfl)), hinv.cDoneOld rfl⟩

/-- Witness for C7 at interval 0 and the initial state. -/
theorem claim7_witness :
    startRescan 0 = false ∧ (Sys.init [dSda]).devices = [dSda] :=
  ⟨by decide,
    (claim7_rescan_gating.2 0 [dSda] [] (Sys.init [dSda]) (by decide)
      Relation.ReflTransGen.refl).1⟩

/-- Claim C8: the rescan-start decision never consults the explicit device
list, and a completed rescan replaces the inventory with the unrestricted
`scanDevices` result even when startup had narrowed the initial inventory by
the allowlist (which is applied only that once). -/
theorem claim8_rescan_unrestricted :
    (∀ (interval : Int) (ds1 ds2 : List String),
        shouldStartRescan interval ds1 = shouldStartRescan interval ds2)
    ∧ (∀ (g : String → String → String) (f : ListingEntry → List Device)
        (fl : DeviceFilter) (base raid : List ListingEntry)
        (explicitDevs : List String) (s : Sys),
        Reach true (scanDevices g f fl base raid)
          (initialInventory (scanDevices g f fl base raid) explicitDevs) s →
        s.rph = RPhase.finished →
        s.devices = scanDevices g f fl base raid) := by
  refine ⟨fun interval ds1 ds2 => rfl, ?_⟩
  intro g f fl base raid explicitDevs s hreach hfin
  exact (sysInv_reach hreach).devNew (Or.inr hfin)

def scan8 : List Device := scanDevices gId fOne flNone [eSda] []

def init8 : List Device := initialInventory scan8 ["zzz"]

def wit8A : Sys := Sys.init init8

def wit8B : Sys := { wit8A with lock := some 0, rph := RPhase.locked }

def wit8C : Sys := { wit8B with devices := scan8, rph := RPhase.written }

def wit8D : Sys := { wit8C with lock := none, rph := RPhase.finished }

/-- Witness for C8 on a concrete execution: startup narrowed the inventory
to nothing, and the completed rescan installs the unrestricted scan
result. -/
theorem claim8_witness :
    wit8D.rph = RPhase.finished ∧ wit8D.devices = scan8 := by
  have hAB : Step true scan8 wit8A wit8B := Step.rLock wit8A rfl rfl rfl
  have hBC : Step true scan8 wit8B wit8C := Step.rWrite wit8B rfl
  have hCD : Step true scan8 wit8C wit8D := Step.rUnlock wit8C rfl
  have hreach : Reach true scan8 init8 wit8D :=
    Relation.ReflTransGen.tail
      (Relation.ReflTransGen.tail
        (Relation.ReflTransGen.tail Relation.ReflTransGen.refl hAB) hBC) hCD
  exact ⟨rfl,
    claim8_rescan_unrestricted.2 gId fOne flNone [eSda] [] ["zzz"] wit8D
      hreach rfl⟩

/-- Claim C9: restriction by an empty allowlist yields the empty inventory,
and the startup code applies the restriction exactly when the explicit list
is non-empty. -/
theorem claim9_empty_allowlist :
    (∀ devices : List Device, filterDevices devices [] = [])
    ∧ (∀ scanned : List Device, initialInventory scanned [] = scanned)
    ∧ (∀ (scanned : List Device) (explicitDevs : List String),
        explicitDevs ≠ [] →
        initialInventory scanned explicitDevs
          = filterDevices scanned explicitDevs) := by
  refine ⟨?_, ?_, ?_⟩
  · intro devices
    rw [filterDevices_eq]
    simp
  · intro scanned
    rfl
  · intro scanned explicitDevs hne
    unfold initialInventory
    rw [if_pos (List.length_pos.mpr hne)]

/-- Witness for C9 at a concrete non-empty allowlist. -/
theorem claim9_witness :
    (["sda"] : List String) ≠ []
    ∧ initialInventory [dSda, dSdb] ["sda"]
        = filterDevices [dSda, dSdb] ["sda"] :=
  ⟨by decide, claim9_empty_allowlist.2.2 [dSda, dSdb] ["sda"] (by decide)⟩

/-- Claim C10: raid-pass dedup is keyed on the trimmed raw `info_name` of
the listings — a raid entry is kept exactly when no base entry shares its
trimmed `info_name` — independent of the derived canonical names the
produced base devices carry (demonstrated on an input where the stored
canonical name differs from the raw key). -/
theorem claim10_dedup_raw_key :
    (∀ (base raid : List ListingEntry) (r : ListingEntry),
        r ∈ keptRaid base raid
          ↔ r ∈ raid
            ∧ ¬ ∃ b ∈ base, trimSpace b.info_name = trimSpace r.info_name)
    ∧ (∀ (g : String → String → String) (f : ListingEntry → List Device)
        (fl : DeviceFilter) (base raid : List ListingEntry),
        scanDevices g f fl base raid
          = (base.map (mkBaseDevice g)
              ++ (keptRaid base raid).flatMap f).filter
              (fun d => !(fl.ignored d.Info_Name)))
    ∧ keptRaid [bBus] [rBus] = []
    ∧ (mkBaseDevice gName bBus).Info_Name ≠ trimSpace bBus.info_name := by
  refine ⟨?_, ?_, by decide, by decide⟩
  · intro base raid r
    rw [keptRaid, List.mem_filter]
    simp [baseKeys]
  · intro g f fl base raid
    rw [scanDevices_eq, scanPre]

end Smartctl
